import Mathlib

/-!
Verification of the UTC-anchored playback synchronization engine of the
synced-audio custom element (src/modules/synced-audio.js).

The numeric type of the JavaScript source is modelled by the rationals.
The JavaScript remainder operator truncates toward zero; it is modelled
by jsMod below.  The per-tick synchronization logic of sync() is modelled
as a pure step function on an explicit state record, with the wall clock,
media position, buffered ranges and so on supplied as per-tick inputs.
-/

namespace SyncedAudio

/-! ## Clock model (utc, targetTime, lag in the source) -/

/-- Truncation toward zero, the rounding used by the JavaScript remainder
operator: floor for nonnegative arguments, ceiling for negative ones,
written on the numerator and denominator so that it evaluates. -/
def rtrunc (q : ℚ) : ℤ := if 0 ≤ q.num then q.num / q.den else -((-q).num / ((-q).den : ℤ))

theorem rtrunc_eq (q : ℚ) : rtrunc q = if 0 ≤ q then ⌊q⌋ else ⌈q⌉ := by
  unfold rtrunc
  by_cases h : 0 ≤ q
  · rw [if_pos (Rat.num_nonneg.mpr h), if_pos h, Rat.floor_def]
  · rw [if_neg (by simpa [Rat.num_nonneg] using h), if_neg h, ← Rat.floor_def,
      Int.floor_neg, neg_neg]

/-- The JavaScript remainder a % b: a - b * trunc (a / b). -/
def jsMod (a b : ℚ) : ℚ := a - b * (rtrunc (a / b) : ℚ)

/-- The normalization pattern used by utc() and targetTime() in the source:
((x % L) + L) % L. -/
def normalize (x L : ℚ) : ℚ := jsMod (jsMod x L + L) L

/-- The device kind, as detected from the user agent in connectedCallback. -/
inductive Device
  | ios
  | android
  | desktop
  deriving DecidableEq, Repr

/-- Immutable configuration of the element: duration (loop duration in
seconds), offset (epoch offset in seconds), the per-device seek lag
constants IOS_LAG and AND_LAG, and the detected device. -/
structure SyncConfig where
  duration : ℚ
  offset : ℚ
  iosLag : ℚ
  andLag : ℚ
  device : Device
  deriving DecidableEq, Repr

/-- lag(): IOS_LAG on iOS, AND_LAG on Android, 0 otherwise. -/
def lagOf (cfg : SyncConfig) : ℚ :=
  match cfg.device with
  | Device.ios => cfg.iosLag
  | Device.android => cfg.andLag
  | Device.desktop => 0

/-- Mutable latency state: lat is the measured pipeline latency in seconds
(0 until measured), audioLatency is the user supplied extra latency in
milliseconds (the audio-latency attribute). -/
structure LatencyState where
  lat : ℚ
  audioLatency : ℚ
  deriving DecidableEq, Repr

/-- targetTime(), translated from the source: the total latency is
lat + lag() + audioLatency / 1000, and the target is
((now + offset + totalLatency) % duration + duration) % duration
where now is the wall clock in seconds. -/
def targetTime (cfg : SyncConfig) (l : LatencyState) (now : ℚ) : ℚ :=
  jsMod (jsMod (now + cfg.offset + (l.lat + lagOf cfg + l.audioLatency / 1000)) cfg.duration
      + cfg.duration) cfg.duration

/-- The total compensation term as the specification words it:
measured latency + user supplied latency / 1000 + platform seek lag. -/
def totalCompensation (cfg : SyncConfig) (l : LatencyState) : ℚ :=
  l.lat + l.audioLatency / 1000 + lagOf cfg

/-! ## Arithmetic facts about jsMod and normalize -/

theorem neg_one_lt_sub_rtrunc (q : ℚ) : -1 < q - (rtrunc q : ℚ) := by
  rw [rtrunc_eq]
  split_ifs with h
  · have h1 : (⌊q⌋ : ℚ) ≤ q := Int.floor_le q
    linarith
  · have h1 : (⌈q⌉ : ℚ) < q + 1 := Int.ceil_lt_add_one q
    linarith

theorem jsMod_nonneg_eq_fract (a b : ℚ) (ha : 0 ≤ a) (hb : 0 < b) :
    jsMod a b = b * Int.fract (a / b) := by
  have hb0 : b ≠ 0 := ne_of_gt hb
  have hq : 0 ≤ a / b := div_nonneg ha (le_of_lt hb)
  unfold jsMod Int.fract
  rw [rtrunc_eq, if_pos hq]
  field_simp

theorem jsMod_add_self_pos (a b : ℚ) (hb : 0 < b) : 0 < jsMod a b + b := by
  have hb0 : b ≠ 0 := ne_of_gt hb
  have h1 : -1 < a / b - (rtrunc (a / b) : ℚ) := neg_one_lt_sub_rtrunc (a / b)
  have h2 : jsMod a b + b = b * ((a / b - (rtrunc (a / b) : ℚ)) + 1) := by
    unfold jsMod
    field_simp
  rw [h2]
  have h3 : 0 < (a / b - (rtrunc (a / b) : ℚ)) + 1 := by linarith
  positivity

theorem normalize_eq_fract (x L : ℚ) (hL : 0 < L) :
    normalize x L = L * Int.fract (x / L) := by
  have hL0 : L ≠ 0 := ne_of_gt hL
  have hpos : 0 < jsMod x L + L := jsMod_add_self_pos x L hL
  have h1 : normalize x L = L * Int.fract ((jsMod x L + L) / L) :=
    jsMod_nonneg_eq_fract (jsMod x L + L) L (le_of_lt hpos) hL
  have h2 : (jsMod x L + L) / L = x / L + ((1 - rtrunc (x / L) : ℤ) : ℚ) := by
    unfold jsMod
    push_cast
    field_simp
    ring
  rw [h1, h2, Int.fract_add_int]

theorem normalize_nonneg (x L : ℚ) (hL : 0 < L) : 0 ≤ normalize x L := by
  rw [normalize_eq_fract x L hL]
  exact mul_nonneg (le_of_lt hL) (Int.fract_nonneg _)

theorem normalize_lt (x L : ℚ) (hL : 0 < L) : normalize x L < L := by
  rw [normalize_eq_fract x L hL]
  have h := Int.fract_lt_one (x / L)
  calc L * Int.fract (x / L) < L * 1 := by
        exact (mul_lt_mul_left hL).mpr h
    _ = L := mul_one L

theorem normalize_add_period (x L : ℚ) (hL : 0 < L) :
    normalize (x + L) L = normalize x L := by
  have hL0 : L ≠ 0 := ne_of_gt hL
  rw [normalize_eq_fract (x + L) L hL, normalize_eq_fract x L hL]
  have h1 : (x + L) / L = x / L + ((1 : ℤ) : ℚ) := by
    push_cast
    field_simp
  rw [h1, Int.fract_add_int]

/-! ## Claims C1 and C2 -/

/-- C1: for every configuration and latency state, the target position
equals normalize (wall clock + epoch offset + total compensation) with
total compensation = measured + user supplied / 1000 + platform seek lag,
and in particular with loop duration 1800, epoch offset 0, wall clock
905.200 s and total compensation 0.05 s the target position is 905.250 s. -/
theorem claim1_targetTime_formula :
    (∀ (cfg : SyncConfig) (l : LatencyState) (now : ℚ),
      targetTime cfg l now = normalize (now + cfg.offset + totalCompensation cfg l) cfg.duration) ∧
    targetTime ⟨1800, 0, -1, 0, Device.desktop⟩ ⟨1/20, 0⟩ (4526/5) = 3621/4 := by
  constructor
  · intro cfg l now
    unfold targetTime normalize totalCompensation
    have h : now + cfg.offset + (l.lat + lagOf cfg + l.audioLatency / 1000)
        = now + cfg.offset + (l.lat + l.audioLatency / 1000 + lagOf cfg) := by ring
    rw [h]
  · have h0 : targetTime ⟨1800, 0, -1, 0, Device.desktop⟩ ⟨1/20, 0⟩ (4526/5)
        = normalize (3621/4) 1800 := by
      unfold targetTime normalize lagOf
      norm_num
    rw [h0, normalize_eq_fract _ _ (by norm_num : (0:ℚ) < 1800)]
    have hf : ⌊(3621/4 : ℚ) / 1800⌋ = 0 := by
      rw [Int.floor_eq_zero_iff, Set.mem_Ico]
      constructor <;> norm_num
    unfold Int.fract
    rw [hf]
    norm_num

/-- C2: for every input x and loop duration L greater than 0, including
negative x, normalize x L lies in the interval from 0 inclusive to L
exclusive and is invariant under adding L; hence the computed target
position always lies in that interval and is never negative. -/
theorem claim2_normalize_bounds (x L : ℚ) (hL : 0 < L)
    (cfg : SyncConfig) (l : LatencyState) (now : ℚ) (hd : 0 < cfg.duration) :
    (0 ≤ normalize x L ∧ normalize x L < L ∧ normalize (x + L) L = normalize x L) ∧
    (0 ≤ targetTime cfg l now ∧ targetTime cfg l now < cfg.duration) := by
  have htt : targetTime cfg l now
      = normalize (now + cfg.offset + (l.lat + lagOf cfg + l.audioLatency / 1000)) cfg.duration := rfl
  refine ⟨⟨normalize_nonneg x L hL, normalize_lt x L hL, normalize_add_period x L hL⟩, ?_, ?_⟩
  · rw [htt]
    exact normalize_nonneg _ _ hd
  · rw [htt]
    exact normalize_lt _ _ hd

/-- Witness for C2: concrete instance at x = -5, L = 3 and the scenario-1
configuration, evaluated on concrete rationals. -/
theorem claim2_witness :
    (0 ≤ normalize (-5) 3 ∧ normalize (-5) 3 < 3 ∧ normalize (-5 + 3) 3 = normalize (-5) 3) ∧
    (0 ≤ targetTime ⟨1800, 0, -1, 0, Device.desktop⟩ ⟨1/20, 0⟩ (4526/5) ∧
      targetTime ⟨1800, 0, -1, 0, Device.desktop⟩ ⟨1/20, 0⟩ (4526/5) < 1800) :=
  claim2_normalize_bounds (-5) 3 (by norm_num)
    ⟨1800, 0, -1, 0, Device.desktop⟩ ⟨1/20, 0⟩ (4526/5) (by norm_num)

/-! ## Buffered-range oracle
(isPositionBuffered, findSafeSeekPosition, getCurrentBufferedEnd) -/

/-- One buffered time range of the audio element, in seconds.  The source
reads buffered.start(i) and buffered.end(i); end is a reserved word, so the
field is named stop. -/
structure BufferedRange where
  start : ℚ
  stop : ℚ
  deriving DecidableEq, Repr

/-- isPositionBuffered, translated from the source: scan the ranges and
report whether the position lies in some range, endpoints included. -/
def isPositionBuffered : List BufferedRange → ℚ → Bool
  | [], _ => false
  | r :: rs, position =>
    if r.start ≤ position ∧ position ≤ r.stop then true
    else isPositionBuffered rs position

/-- The scanning loop of findSafeSeekPosition: safest is the running
safestPosition; a range containing the target returns the target at once,
and a range starting after safest but not after the target moves safest to
min (end - 0.5) target. -/
def findSafeSeekGo (targetTime : ℚ) : List BufferedRange → ℚ → ℚ
  | [], safest => safest
  | r :: rs, safest =>
    if r.start ≤ targetTime ∧ targetTime ≤ r.stop then targetTime
    else if safest < r.start ∧ r.start ≤ targetTime then
      findSafeSeekGo targetTime rs (min (r.stop - 1/2) targetTime)
    else findSafeSeekGo targetTime rs safest

/-- findSafeSeekPosition, translated from the source: with no buffered
data it returns the current time, otherwise it runs the scanning loop with
safestPosition starting at the current time. -/
def findSafeSeekPosition (buffered : List BufferedRange) (currentTime targetTime : ℚ) : ℚ :=
  if buffered = [] then currentTime
  else findSafeSeekGo targetTime buffered currentTime

/-- The scanning loop of getCurrentBufferedEnd: a range containing the
current time returns its end at once (break); a range starting after the
current time raises the running furthestEnd to its end. -/
def bufferedEndGo (currentTime : ℚ) : List BufferedRange → ℚ → ℚ
  | [], furthestEnd => furthestEnd
  | r :: rs, furthestEnd =>
    if r.start ≤ currentTime ∧ currentTime ≤ r.stop then r.stop
    else if currentTime < r.start then bufferedEndGo currentTime rs (max furthestEnd r.stop)
    else bufferedEndGo currentTime rs furthestEnd

/-- getCurrentBufferedEnd, translated from the source. -/
def getCurrentBufferedEnd (buffered : List BufferedRange) (currentTime : ℚ) : ℚ :=
  if buffered = [] then currentTime
  else bufferedEndGo currentTime buffered currentTime

/-- A position lies in a range, endpoints included, as isPositionBuffered
tests it. -/
def containsPos (r : BufferedRange) (p : ℚ) : Prop := r.start ≤ p ∧ p ≤ r.stop

/-- A range whose start lies strictly between the current position and the
desired target, the ranges findSafeSeekPosition can advance into. -/
def advancesToward (current t : ℚ) (r : BufferedRange) : Prop :=
  current < r.start ∧ r.start ≤ t

theorem isPositionBuffered_iff (l : List BufferedRange) (p : ℚ) :
    isPositionBuffered l p = true ↔ ∃ r ∈ l, containsPos r p := by
  induction l with
  | nil => simp [isPositionBuffered]
  | cons r rs ih =>
    unfold isPositionBuffered
    split_ifs with h
    · simp only [true_iff]
      exact ⟨r, List.mem_cons_self r rs, h⟩
    · rw [ih]
      constructor
      · rintro ⟨r2, hmem, hc⟩
        exact ⟨r2, List.mem_cons_of_mem r hmem, hc⟩
      · rintro ⟨r2, hmem, hc⟩
        rcases List.mem_cons.mp hmem with heq | hmem2
        · exact absurd (heq ▸ hc) h
        · exact ⟨r2, hmem2, hc⟩

theorem findSafeSeekGo_of_contains (t : ℚ) (l : List BufferedRange) (s : ℚ)
    (h : ∃ r ∈ l, containsPos r t) : findSafeSeekGo t l s = t := by
  induction l generalizing s with
  | nil => simp at h
  | cons r rs ih =>
    unfold findSafeSeekGo
    split_ifs with h1 h2
    · rfl
    · rcases h with ⟨r2, hmem, hc⟩
      rcases List.mem_cons.mp hmem with heq | hmem2
      · exact absurd (heq ▸ hc) h1
      · exact ih _ ⟨r2, hmem2, hc⟩
    · rcases h with ⟨r2, hmem, hc⟩
      rcases List.mem_cons.mp hmem with heq | hmem2
      · exact absurd (heq ▸ hc) h1
      · exact ih _ ⟨r2, hmem2, hc⟩

theorem findSafeSeekGo_no_action (t : ℚ) (l : List BufferedRange) (s : ℚ)
    (hnc : ∀ r ∈ l, ¬containsPos r t)
    (hnq : ∀ r ∈ l, ¬advancesToward s t r) : findSafeSeekGo t l s = s := by
  induction l with
  | nil => rfl
  | cons r rs ih =>
    have h1 : ¬(r.start ≤ t ∧ t ≤ r.stop) := hnc r (List.mem_cons_self r rs)
    have h2 : ¬(s < r.start ∧ r.start ≤ t) := hnq r (List.mem_cons_self r rs)
    unfold findSafeSeekGo
    rw [if_neg h1, if_neg h2]
    exact ih (fun x hx => hnc x (List.mem_cons_of_mem r hx))
      (fun x hx => hnq x (List.mem_cons_of_mem r hx))

theorem findSafeSeekGo_buffered (ranges : List BufferedRange) (t : ℚ)
    (hlen : ∀ r ∈ ranges, 1/2 ≤ r.stop - r.start) :
    ∀ (l : List BufferedRange), (∀ r ∈ l, r ∈ ranges) → ∀ (s : ℚ),
    ((∃ r ∈ l, advancesToward s t r) ∨ isPositionBuffered ranges s = true) →
    isPositionBuffered ranges (findSafeSeekGo t l s) = true := by
  intro l
  induction l with
  | nil =>
    intro _ s h
    rcases h with ⟨r, hr, _⟩ | hb
    · exact absurd hr (List.not_mem_nil r)
    · exact hb
  | cons r rs ih =>
    intro hsub s h
    have hrmem : r ∈ ranges := hsub r (List.mem_cons_self r rs)
    have hsub2 : ∀ x ∈ rs, x ∈ ranges := fun x hx => hsub x (List.mem_cons_of_mem r hx)
    unfold findSafeSeekGo
    split_ifs with h1 h2
    · exact (isPositionBuffered_iff ranges t).mpr ⟨r, hrmem, h1⟩
    · have hts : r.stop < t := not_le.mp (fun hc => h1 ⟨h2.2, hc⟩)
      have hmin : min (r.stop - 1/2) t = r.stop - 1/2 := min_eq_left (by linarith)
      apply ih hsub2
      right
      rw [hmin]
      apply (isPositionBuffered_iff ranges _).mpr
      have hlr := hlen r hrmem
      exact ⟨r, hrmem, by constructor <;> [linarith; linarith]⟩
    · apply ih hsub2
      rcases h with ⟨r2, hmem, hq⟩ | hb
      · rcases List.mem_cons.mp hmem with heq | hm2
        · exact absurd (heq ▸ hq) h2
        · exact Or.inl ⟨r2, hm2, hq⟩
      · exact Or.inr hb

theorem findSafeSeekGo_furthest (t : ℚ) :
    ∀ (l : List BufferedRange) (s : ℚ),
    (∀ r ∈ l, r.start ≤ r.stop) →
    l.Pairwise (fun a b => a.stop ≤ b.start) →
    (∀ r ∈ l, ¬containsPos r t) →
    (∃ r ∈ l, advancesToward s t r) →
    ∃ r ∈ l, advancesToward s t r ∧
      (∀ r2 ∈ l, advancesToward s t r2 → r2.start ≤ r.start) ∧
      findSafeSeekGo t l s = min (r.stop - 1/2) t := by
  intro l
  induction l with
  | nil =>
    intro s _ _ _ hex
    simp at hex
  | cons r rs ih =>
    intro s hv hp hnc hex
    have hvr : r.start ≤ r.stop := hv r (List.mem_cons_self r rs)
    have hvrs : ∀ x ∈ rs, x.start ≤ x.stop := fun x hx => hv x (List.mem_cons_of_mem r hx)
    have hpr : ∀ x ∈ rs, r.stop ≤ x.start := (List.pairwise_cons.mp hp).1
    have hprs := (List.pairwise_cons.mp hp).2
    have hncr : ¬containsPos r t := hnc r (List.mem_cons_self r rs)
    have hncs : ∀ x ∈ rs, ¬containsPos x t := fun x hx => hnc x (List.mem_cons_of_mem r hx)
    have hncr2 : ¬(r.start ≤ t ∧ t ≤ r.stop) := hncr
    unfold findSafeSeekGo
    rw [if_neg hncr2]
    by_cases hq : advancesToward s t r
    · rw [if_pos (show s < r.start ∧ r.start ≤ t from hq)]
      have hst : r.stop < t := not_le.mp (fun hc => hncr ⟨hq.2, hc⟩)
      have hmin : min (r.stop - 1/2) t = r.stop - 1/2 := min_eq_left (by linarith)
      by_cases hex2 : ∃ x ∈ rs, advancesToward (min (r.stop - 1/2) t) t x
      · obtain ⟨r2, hr2mem, hr2q, hr2max, hgo⟩ := ih (min (r.stop - 1/2) t) hvrs hprs hncs hex2
        refine ⟨r2, List.mem_cons_of_mem r hr2mem, ⟨?_, hr2q.2⟩, ?_, hgo⟩
        · have hps := hpr r2 hr2mem
          have hq1 := hq.1
          linarith
        · intro r3 hr3 hq3
          rcases List.mem_cons.mp hr3 with heq | hm3
          · have hps := hpr r2 hr2mem
            rw [heq]
            linarith
          · apply hr2max r3 hm3
            have hps := hpr r3 hm3
            exact ⟨by rw [hmin]; linarith, hq3.2⟩
      · have hgo : findSafeSeekGo t rs (min (r.stop - 1/2) t) = min (r.stop - 1/2) t := by
          apply findSafeSeekGo_no_action t rs _ hncs
          intro x hx hc
          exact hex2 ⟨x, hx, hc⟩
        refine ⟨r, List.mem_cons_self r rs, hq, ?_, hgo⟩
        intro r3 hr3 hq3
        rcases List.mem_cons.mp hr3 with heq | hm3
        · rw [heq]
        · exfalso
          apply hex2
          refine ⟨r3, hm3, ?_, hq3.2⟩
          have hps := hpr r3 hm3
          rw [hmin]
          linarith
    · rw [if_neg (show ¬(s < r.start ∧ r.start ≤ t) from hq)]
      have hex3 : ∃ x ∈ rs, advancesToward s t x := by
        rcases hex with ⟨r2, hmem, hq2⟩
        rcases List.mem_cons.mp hmem with heq | hm
        · exact absurd (heq ▸ hq2) hq
        · exact ⟨r2, hm, hq2⟩
      obtain ⟨r2, hm2, hq2, hmax2, hgo2⟩ := ih s hvrs hprs hncs hex3
      refine ⟨r2, List.mem_cons_of_mem r hm2, hq2, ?_, hgo2⟩
      intro r3 hr3 hq3
      rcases List.mem_cons.mp hr3 with heq | hm3
      · exact absurd (heq ▸ hq3) hq
      · exact hmax2 r3 hm3 hq3

/-- C3, counterexample: with the single buffered range from 1 s to 1.2 s,
current position 0 and desired target 5, a qualifying range exists (its
start lies between 0 and 5), yet findSafeSeekPosition returns
min (1.2 - 0.5) 5 = 0.7, which isPositionBuffered classifies as not
buffered.  The claim as stated is therefore false on the code. -/
theorem claim3_counterexample :
    (∃ r ∈ [BufferedRange.mk 1 (6/5)], containsPos r 5 ∨ advancesToward 0 5 r) ∧
    findSafeSeekPosition [BufferedRange.mk 1 (6/5)] 0 5 = 7/10 ∧
    isPositionBuffered [BufferedRange.mk 1 (6/5)] (7/10) = false := by
  refine ⟨⟨⟨1, 6/5⟩, List.mem_cons_self _ _, Or.inr ⟨by norm_num, by norm_num⟩⟩, ?_, ?_⟩
  · unfold findSafeSeekPosition
    norm_num [findSafeSeekGo]
  · norm_num [isPositionBuffered]

/-- C3 amended: when every buffered range is at least 0.5 s long, a result
of findSafeSeekPosition is classified as buffered whenever a qualifying
range exists (one containing the desired target, or one whose start lies
between the current position and the target); and when no range qualifies,
findSafeSeekPosition returns the current position unchanged. -/
theorem claim3_safeSeek_buffered (buffered : List BufferedRange) (current t : ℚ)
    (hlen : ∀ r ∈ buffered, 1/2 ≤ r.stop - r.start) :
    ((∃ r ∈ buffered, containsPos r t ∨ advancesToward current t r) →
      isPositionBuffered buffered (findSafeSeekPosition buffered current t) = true) ∧
    ((∀ r ∈ buffered, ¬containsPos r t ∧ ¬advancesToward current t r) →
      findSafeSeekPosition buffered current t = current) := by
  constructor
  · rintro ⟨r, hmem, hcq⟩
    have hne : buffered ≠ [] := by
      intro h
      rw [h] at hmem
      exact List.not_mem_nil r hmem
    unfold findSafeSeekPosition
    rw [if_neg hne]
    rcases hcq with hc | hq
    · rw [findSafeSeekGo_of_contains t buffered current ⟨r, hmem, hc⟩]
      exact (isPositionBuffered_iff buffered t).mpr ⟨r, hmem, hc⟩
    · exact findSafeSeekGo_buffered buffered t hlen buffered (fun _ h => h) current
        (Or.inl ⟨r, hmem, hq⟩)
  · intro hall
    unfold findSafeSeekPosition
    split_ifs with hemp
    · rfl
    · exact findSafeSeekGo_no_action t buffered current
        (fun r hr => (hall r hr).1) (fun r hr => (hall r hr).2)

/-- Witness for C3 at the scenario-3 input: ranges 0 to 12 and 15 to 20
with current position 10 and desired target 18; the range from 15 to 20
qualifies and the returned position is buffered. -/
theorem claim3_witness :
    isPositionBuffered [BufferedRange.mk 0 12, BufferedRange.mk 15 20]
      (findSafeSeekPosition [BufferedRange.mk 0 12, BufferedRange.mk 15 20] 10 18) = true :=
  (claim3_safeSeek_buffered [BufferedRange.mk 0 12, BufferedRange.mk 15 20] 10 18
      (by
        intro r hr
        rcases List.mem_cons.mp hr with h | h
        · rw [h]; norm_num
        · rcases List.mem_cons.mp h with h2 | h2
          · rw [h2]; norm_num
          · exact absurd h2 (List.not_mem_nil r))).1
    ⟨BufferedRange.mk 15 20, List.mem_cons_of_mem _ (List.mem_cons_self _ _),
      Or.inl ⟨by norm_num, by norm_num⟩⟩

/-- C4: for an ordered non-overlapping range sequence, findSafeSeekPosition
returns the desired target exactly when some range contains it; otherwise,
when some range starts between the current position and the target, it
returns min (end - 0.5) target for the qualifying range advancing
furthest toward the target; otherwise it returns the current position. -/
theorem claim4_findSafeSeek_cases (buffered : List BufferedRange) (current t : ℚ)
    (hv : ∀ r ∈ buffered, r.start ≤ r.stop)
    (hp : buffered.Pairwise (fun a b => a.stop ≤ b.start)) :
    ((∃ r ∈ buffered, containsPos r t) → findSafeSeekPosition buffered current t = t) ∧
    ((∀ r ∈ buffered, ¬containsPos r t) → (∃ r ∈ buffered, advancesToward current t r) →
      ∃ r ∈ buffered, advancesToward current t r ∧
        (∀ r2 ∈ buffered, advancesToward current t r2 → r2.start ≤ r.start) ∧
        findSafeSeekPosition buffered current t = min (r.stop - 1/2) t) ∧
    ((∀ r ∈ buffered, ¬containsPos r t ∧ ¬advancesToward current t r) →
      findSafeSeekPosition buffered current t = current) := by
  refine ⟨?_, ?_, ?_⟩
  · rintro h
    have hne : buffered ≠ [] := by
      rcases h with ⟨r, hmem, _⟩
      intro he
      rw [he] at hmem
      exact List.not_mem_nil r hmem
    unfold findSafeSeekPosition
    rw [if_neg hne]
    exact findSafeSeekGo_of_contains t buffered current h
  · intro hnc hex
    have hne : buffered ≠ [] := by
      rcases hex with ⟨r, hmem, _⟩
      intro he
      rw [he] at hmem
      exact List.not_mem_nil r hmem
    unfold findSafeSeekPosition
    rw [if_neg hne]
    exact findSafeSeekGo_furthest t buffered current hv hp hnc hex
  · intro hall
    unfold findSafeSeekPosition
    split_ifs with hemp
    · rfl
    · exact findSafeSeekGo_no_action t buffered current
        (fun r hr => (hall r hr).1) (fun r hr => (hall r hr).2)

/-- Witness for C4 at the scenario-3 input: ranges 0 to 12 and 15 to 20,
current position 10, desired target 18; the range from 15 to 20 contains
18, so findSafeSeekPosition returns 18 exactly. -/
theorem claim4_witness :
    findSafeSeekPosition [BufferedRange.mk 0 12, BufferedRange.mk 15 20] 10 18 = 18 :=
  (claim4_findSafeSeek_cases [BufferedRange.mk 0 12, BufferedRange.mk 15 20] 10 18
      (by
        intro r hr
        rcases List.mem_cons.mp hr with h | h
        · rw [h]; norm_num
        · rcases List.mem_cons.mp h with h2 | h2
          · rw [h2]; norm_num
          · exact absurd h2 (List.not_mem_nil r))
      (by
        constructor
        · intro b hb
          rcases List.mem_cons.mp hb with h | h
          · rw [h]; norm_num
          · exact absurd h (List.not_mem_nil b)
        · constructor
          · intro b hb
            exact absurd hb (List.not_mem_nil b)
          · exact List.Pairwise.nil)).1
    ⟨BufferedRange.mk 15 20, List.mem_cons_of_mem _ (List.mem_cons_self _ _),
      by constructor <;> norm_num⟩

theorem bufferedEndGo_contains (c : ℚ) :
    ∀ (l : List BufferedRange) (f : ℚ), (∃ r ∈ l, containsPos r c) →
    ∃ r ∈ l, containsPos r c ∧ bufferedEndGo c l f = r.stop := by
  intro l
  induction l with
  | nil =>
    intro f h
    simp at h
  | cons r rs ih =>
    intro f h
    unfold bufferedEndGo
    split_ifs with h1 h2
    · exact ⟨r, List.mem_cons_self r rs, h1, rfl⟩
    all_goals {
      have hex : ∃ x ∈ rs, containsPos x c := by
        rcases h with ⟨r2, hmem, hc⟩
        rcases List.mem_cons.mp hmem with heq | hm
        · exact absurd (heq ▸ hc) h1
        · exact ⟨r2, hm, hc⟩
      obtain ⟨r2, hm2, hc2, hgo⟩ := ih _ hex
      exact ⟨r2, List.mem_cons_of_mem r hm2, hc2, hgo⟩ }

theorem bufferedEndGo_no_contains (c : ℚ) :
    ∀ (l : List BufferedRange), (∀ r ∈ l, ¬containsPos r c) → ∀ (f : ℚ),
    f ≤ bufferedEndGo c l f ∧
    (bufferedEndGo c l f = f ∨ ∃ r ∈ l, c < r.start ∧ bufferedEndGo c l f = r.stop) ∧
    (∀ r ∈ l, c < r.start → r.stop ≤ bufferedEndGo c l f) := by
  intro l
  induction l with
  | nil =>
    intro _ f
    refine ⟨le_refl f, Or.inl rfl, ?_⟩
    intro r hr
    exact absurd hr (List.not_mem_nil r)
  | cons r rs ih =>
    intro hnc f
    have h1 : ¬(r.start ≤ c ∧ c ≤ r.stop) := hnc r (List.mem_cons_self r rs)
    have hncs : ∀ x ∈ rs, ¬containsPos x c := fun x hx => hnc x (List.mem_cons_of_mem r hx)
    unfold bufferedEndGo
    rw [if_neg h1]
    split_ifs with h2
    · obtain ⟨ih1, ih2, ih3⟩ := ih hncs (max f r.stop)
      refine ⟨le_trans (le_max_left f r.stop) ih1, ?_, ?_⟩
      · rcases ih2 with heq | ⟨r2, hm2, hlt2, heq2⟩
        · rcases max_choice f r.stop with hmax | hmax
          · exact Or.inl (heq.trans hmax)
          · exact Or.inr ⟨r, List.mem_cons_self r rs, h2, heq.trans hmax⟩
        · exact Or.inr ⟨r2, List.mem_cons_of_mem r hm2, hlt2, heq2⟩
      · intro r2 hm2 hlt2
        rcases List.mem_cons.mp hm2 with heq | hm3
        · rw [heq]
          exact le_trans (le_max_right f r.stop) ih1
        · exact ih3 r2 hm3 hlt2
    · obtain ⟨ih1, ih2, ih3⟩ := ih hncs f
      refine ⟨ih1, ?_, ?_⟩
      · rcases ih2 with heq | ⟨r2, hm2, hlt2, heq2⟩
        · exact Or.inl heq
        · exact Or.inr ⟨r2, List.mem_cons_of_mem r hm2, hlt2, heq2⟩
      · intro r2 hm2 hlt2
        rcases List.mem_cons.mp hm2 with heq | hm3
        · exact absurd (heq ▸ hlt2) h2
        · exact ih3 r2 hm3 hlt2

/-- C5, counterexample: with the single buffered range from 5 s to 10 s
and current position 0, no range contains the current position, yet
getCurrentBufferedEnd returns 10, not the current position unchanged:
the loop also raises furthestEnd over ranges that start after the current
position. -/
theorem claim5_counterexample :
    (∀ r ∈ [BufferedRange.mk 5 10], ¬containsPos r 0) ∧
    getCurrentBufferedEnd [BufferedRange.mk 5 10] 0 = 10 ∧ (10 : ℚ) ≠ 0 := by
  refine ⟨?_, ?_, by norm_num⟩
  · intro r hr hc
    rcases List.mem_cons.mp hr with h | h
    · rw [h] at hc
      have := hc.1
      norm_num at this
    · exact absurd h (List.not_mem_nil r)
  · norm_num [getCurrentBufferedEnd, bufferedEndGo]

/-- C5 amended: getCurrentBufferedEnd returns the end of a range that
contains the current position when one does; when none contains it, the
result is the maximum of the current position and the ends of the ranges
that start after the current position, and in particular it is the current
position unchanged exactly when additionally no range starts after it. -/
theorem claim5_bufferedEnd_cases (buffered : List BufferedRange) (c : ℚ) :
    ((∃ r ∈ buffered, containsPos r c) →
      ∃ r ∈ buffered, containsPos r c ∧ getCurrentBufferedEnd buffered c = r.stop) ∧
    ((∀ r ∈ buffered, ¬containsPos r c) →
      c ≤ getCurrentBufferedEnd buffered c ∧
      (getCurrentBufferedEnd buffered c = c ∨
        ∃ r ∈ buffered, c < r.start ∧ getCurrentBufferedEnd buffered c = r.stop) ∧
      (∀ r ∈ buffered, c < r.start → r.stop ≤ getCurrentBufferedEnd buffered c)) ∧
    ((∀ r ∈ buffered, ¬containsPos r c ∧ ¬(c < r.start)) →
      getCurrentBufferedEnd buffered c = c) := by
  refine ⟨?_, ?_, ?_⟩
  · intro h
    have hne : buffered ≠ [] := by
      rcases h with ⟨r, hmem, _⟩
      intro he
      rw [he] at hmem
      exact List.not_mem_nil r hmem
    unfold getCurrentBufferedEnd
    rw [if_neg hne]
    exact bufferedEndGo_contains c buffered c h
  · intro hnc
    unfold getCurrentBufferedEnd
    split_ifs with hemp
    · exact ⟨le_refl c, Or.inl rfl, by intro r hr; rw [hemp] at hr; exact absurd hr (List.not_mem_nil r)⟩
    · exact bufferedEndGo_no_contains c buffered hnc c
  · intro hall
    unfold getCurrentBufferedEnd
    split_ifs with hemp
    · rfl
    · obtain ⟨_, h2, _⟩ := bufferedEndGo_no_contains c buffered (fun r hr => (hall r hr).1) c
      rcases h2 with heq | ⟨r, hm, hlt, _⟩
      · exact heq
      · exact absurd hlt (hall r hm).2

/-- Witness for C5 at ranges 0 to 12 and 15 to 20 with current position
10: the range from 0 to 12 contains 10 and the returned end is its end. -/
theorem claim5_witness :
    ∃ r ∈ [BufferedRange.mk 0 12, BufferedRange.mk 15 20], containsPos r 10 ∧
      getCurrentBufferedEnd [BufferedRange.mk 0 12, BufferedRange.mk 15 20] 10 = r.stop :=
  (claim5_bufferedEnd_cases [BufferedRange.mk 0 12, BufferedRange.mk 15 20] 10).1
    ⟨BufferedRange.mk 0 12, List.mem_cons_self _ _, by constructor <;> norm_num⟩

/-- C10: for valid ranges (start at most end), getCurrentBufferedEnd never
returns a value strictly below the current position; it returns the
end of the containing range when some range contains the position, the maximum
end among ranges whose start exceeds the position when none contains it
but such ranges exist, and the current position itself otherwise. -/
theorem claim10_bufferedEnd_forward (buffered : List BufferedRange) (c : ℚ)
    (hv : ∀ r ∈ buffered, r.start ≤ r.stop) :
    c ≤ getCurrentBufferedEnd buffered c ∧
    ((∃ r ∈ buffered, containsPos r c) →
      ∃ r ∈ buffered, containsPos r c ∧ getCurrentBufferedEnd buffered c = r.stop) ∧
    ((∀ r ∈ buffered, ¬containsPos r c) → (∃ r ∈ buffered, c < r.start) →
      ∃ r ∈ buffered, c < r.start ∧ getCurrentBufferedEnd buffered c = r.stop ∧
        ∀ r2 ∈ buffered, c < r2.start → r2.stop ≤ r.stop) ∧
    ((∀ r ∈ buffered, ¬containsPos r c ∧ ¬(c < r.start)) →
      getCurrentBufferedEnd buffered c = c) := by
  obtain ⟨hcont, hnc, hnone⟩ := claim5_bufferedEnd_cases buffered c
  refine ⟨?_, hcont, ?_, hnone⟩
  · by_cases h : ∃ r ∈ buffered, containsPos r c
    · obtain ⟨r, _, hc, heq⟩ := hcont h
      rw [heq]
      exact hc.2
    · push_neg at h
      exact (hnc (fun r hr => h r hr)).1
  · intro hncall hex
    obtain ⟨h1, h2, h3⟩ := hnc hncall
    rcases h2 with heq | ⟨r, hm, hlt, heq⟩
    · exfalso
      rcases hex with ⟨r0, hm0, hlt0⟩
      have hb := h3 r0 hm0 hlt0
      have hv0 := hv r0 hm0
      rw [heq] at hb
      linarith
    · refine ⟨r, hm, hlt, heq, ?_⟩
      intro r2 hm2 hlt2
      have := h3 r2 hm2 hlt2
      rw [heq] at this
      exact this

/-- Witness for C10 at the single range from 5 s to 10 s and current
position 0: the result 10 is not below the current position 0. -/
theorem claim10_witness :
    (0 : ℚ) ≤ getCurrentBufferedEnd [BufferedRange.mk 5 10] 0 :=
  (claim10_bufferedEnd_forward [BufferedRange.mk 5 10] 0
      (by
        intro r hr
        rcases List.mem_cons.mp hr with h | h
        · rw [h]; norm_num
        · exact absurd h (List.not_mem_nil r))).1

/-! ## Drift corrector: the per-tick logic of sync()
The mutable element fields used by sync() form the state: _lastCurrentTime,
_stuckCount, _looping and _lastSeek.  Undefined numeric fields are modelled
as none; the JavaScript truthiness tests on them also treat 0 as unset.
The _looping flag, cleared by a 200 ms timeout, is modelled by the instant
loopingUntil at which the window expires.  Everything sync() reads from
the audio element and the clock is a per-tick input; currentTime writes,
the seek branch taken and recoverFromStuck invocations are the outputs. -/

structure SyncState where
  lastCurrentTime : Option ℚ
  stuckCount : ℕ
  loopingUntil : Option ℚ
  lastSeek : Option ℚ
  deriving DecidableEq, Repr

/-- The field values before any tick has run: all four fields undefined or
zero, as on a freshly connected element. -/
def initialSyncState : SyncState := ⟨none, 0, none, none⟩

structure TickInput where
  now : ℚ
  currentTime : ℚ
  targetTime : ℚ
  paused : Bool
  duration : ℚ
  isMP3 : Bool
  buffered : List BufferedRange
  force : Bool
  deriving DecidableEq, Repr

/-- Which of the five currentTime writes in sync() fired this tick. -/
inductive SeekKind
  | loop
  | safeAdvance
  | bufferEdge
  | forceJump
  | direct
  deriving DecidableEq, Repr

structure TickOutput where
  state : SyncState
  seek : Option ℚ
  seekKind : Option SeekKind
  recovery : Bool
  deriving DecidableEq, Repr

/-- JavaScript truthiness test on a possibly undefined numeric field:
undefined and 0 are both falsy. -/
def jsFalsy : Option ℚ → Bool
  | none => true
  | some q => decide (q = 0)

/-- The value of _lastCurrentTime after the line
if (not paused and not _lastCurrentTime) _lastCurrentTime = currentTime. -/
def observedLastCT (st : SyncState) (inp : TickInput) : Option ℚ :=
  if inp.paused = false ∧ jsFalsy st.lastCurrentTime = true then some inp.currentTime
  else st.lastCurrentTime

/-- Whether the 200 ms loop-transition window is still open at the given
instant: _looping is true from the boundary seek until the timeout fires. -/
def loopingActive (st : SyncState) (now : ℚ) : Bool :=
  match st.loopingUntil with
  | none => false
  | some u => decide (now < u)

/-- The rate-limit test of sync(): not _lastSeek or now - _lastSeek > 500. -/
def rateOk (lastSeek : Option ℚ) (now : ℚ) : Bool :=
  match lastSeek with
  | none => true
  | some t0 => decide (t0 = 0) || decide (500 < now - t0)

/-- The condition under which the tick is captured by the stuck guard of
sync(): MP3 source, not paused, observed last position equal to the
current position, and current position below the 2 s stuck threshold. -/
def stuckCaptured (st : SyncState) (inp : TickInput) : Prop :=
  inp.isMP3 = true ∧ inp.paused = false ∧
    observedLastCT st inp = some inp.currentTime ∧ inp.currentTime < 2

/-- One invocation of sync(force), translated branch for branch from the
source: stuck guard (with recovery after more than 10 stuck ticks), then
the seamless-loop guard, then rate-limited drift correction with the
MP3 three-tier tactic or direct seeking. -/
def syncStep (allowed : ℚ) (st : SyncState) (inp : TickInput) : TickOutput :=
  if inp.isMP3 = true ∧ inp.paused = false ∧
      observedLastCT st inp = some inp.currentTime ∧ inp.currentTime < 2 then
    if 10 < st.stuckCount + 1 then
      { state := { lastCurrentTime := observedLastCT st inp, stuckCount := 0,
                   loopingUntil := st.loopingUntil, lastSeek := st.lastSeek },
        seek := none, seekKind := none, recovery := true }
    else
      { state := { lastCurrentTime := observedLastCT st inp, stuckCount := st.stuckCount + 1,
                   loopingUntil := st.loopingUntil, lastSeek := st.lastSeek },
        seek := none, seekKind := none, recovery := false }
  else
    if inp.duration ≠ 0 ∧ loopingActive st inp.now = false ∧
        inp.duration - inp.currentTime ≤ 1/10 ∧ 0 < inp.duration - inp.currentTime then
      { state := { lastCurrentTime := some inp.currentTime, stuckCount := 0,
                   loopingUntil := some (inp.now + 200), lastSeek := st.lastSeek },
        seek := some inp.targetTime, seekKind := some SeekKind.loop, recovery := false }
    else if inp.force = true ∨ allowed < |(inp.currentTime - inp.targetTime) * 1000| then
      if rateOk st.lastSeek inp.now = true then
        if inp.isMP3 = true then
          if inp.currentTime < findSafeSeekPosition inp.buffered inp.currentTime inp.targetTime then
            { state := { lastCurrentTime := some inp.currentTime, stuckCount := 0,
                         loopingUntil := st.loopingUntil, lastSeek := some inp.now },
              seek := some (findSafeSeekPosition inp.buffered inp.currentTime inp.targetTime),
              seekKind := some SeekKind.safeAdvance, recovery := false }
          else if inp.currentTime + 1/2 < getCurrentBufferedEnd inp.buffered inp.currentTime then
            { state := { lastCurrentTime := some inp.currentTime, stuckCount := 0,
                         loopingUntil := st.loopingUntil, lastSeek := some inp.now },
              seek := some (min (getCurrentBufferedEnd inp.buffered inp.currentTime - 1/5)
                  inp.targetTime),
              seekKind := some SeekKind.bufferEdge, recovery := false }
          else if inp.currentTime < min (inp.currentTime + 2) inp.targetTime then
            { state := { lastCurrentTime := some inp.currentTime, stuckCount := 0,
                         loopingUntil := st.loopingUntil, lastSeek := some inp.now },
              seek := some (min (inp.currentTime + 2) inp.targetTime),
              seekKind := some SeekKind.forceJump, recovery := false }
          else
            { state := { lastCurrentTime := some inp.currentTime, stuckCount := 0,
                         loopingUntil := st.loopingUntil, lastSeek := some inp.now },
              seek := none, seekKind := none, recovery := false }
        else
          { state := { lastCurrentTime := some inp.currentTime, stuckCount := 0,
                       loopingUntil := st.loopingUntil, lastSeek := some inp.now },
            seek := some inp.targetTime, seekKind := some SeekKind.direct, recovery := false }
      else
        { state := { lastCurrentTime := some inp.currentTime, stuckCount := 0,
                     loopingUntil := st.loopingUntil, lastSeek := st.lastSeek },
          seek := none, seekKind := none, recovery := false }
    else
      { state := { lastCurrentTime := some inp.currentTime, stuckCount := 0,
                   loopingUntil := st.loopingUntil, lastSeek := st.lastSeek },
        seek := none, seekKind := none, recovery := false }

/-- A drift-correction seek: any seek issued by the rate-limited branch of
sync(), as opposed to the loop-boundary seek. -/
def isCorrectionSeek (out : TickOutput) : Bool :=
  match out.seekKind with
  | some SeekKind.loop => false
  | some _ => true
  | none => false

theorem correctionSeek_sets_lastSeek (a : ℚ) (st : SyncState) (inp : TickInput)
    (h : isCorrectionSeek (syncStep a st inp) = true) :
    (syncStep a st inp).state.lastSeek = some inp.now := by
  unfold syncStep at h ⊢
  split_ifs at h ⊢ <;> simp_all [isCorrectionSeek]

theorem rateBlocked_no_correction (a : ℚ) (st : SyncState) (inp : TickInput)
    (h : rateOk st.lastSeek inp.now = false) :
    isCorrectionSeek (syncStep a st inp) = false := by
  unfold syncStep
  split_ifs <;> simp_all [isCorrectionSeek]

/-- The outputs of a sequence of sync() invocations, threading the state
from tick to tick. -/
def ticksOutputs (allowed : ℚ) (st : SyncState) : List TickInput → List TickOutput
  | [] => []
  | inp :: rest =>
    syncStep allowed st inp :: ticksOutputs allowed (syncStep allowed st inp).state rest

/-- While the recorded last seek instant t0 is nonzero and a tick falls
within 500 ms of it, the rate test blocks the correction branch: the tick
issues no correction seek and leaves the recorded instant unchanged. -/
theorem blocked_tick (a : ℚ) (st : SyncState) (inp : TickInput) (t0 : ℚ)
    (hlast : st.lastSeek = some t0) (ht0 : t0 ≠ 0) (hwin : inp.now - t0 ≤ 500) :
    isCorrectionSeek (syncStep a st inp) = false ∧
    (syncStep a st inp).state.lastSeek = some t0 := by
  have hro : rateOk st.lastSeek inp.now = false := by
    rw [hlast]
    simp [rateOk, ht0, not_lt.mpr hwin]
  unfold syncStep
  split_ifs <;> simp_all [isCorrectionSeek]

/-- No tick of a sequence that stays within 500 ms of the nonzero recorded
last seek instant issues a correction seek, however many ticks there are:
the recorded instant is preserved from tick to tick while the window is
open. -/
theorem noCorrection_in_window (allowed t0 : ℚ) (ht0 : t0 ≠ 0) :
    ∀ (inps : List TickInput) (st : SyncState), st.lastSeek = some t0 →
    (∀ inp ∈ inps, inp.now - t0 ≤ 500) →
    ∀ out ∈ ticksOutputs allowed st inps, isCorrectionSeek out = false := by
  intro inps
  induction inps with
  | nil =>
    intro st _ _ out hout
    exact absurd hout (List.not_mem_nil out)
  | cons inp rest ih =>
    intro st hlast hwin out hout
    have hb := blocked_tick allowed st inp t0 hlast ht0
      (hwin inp (List.mem_cons_self inp rest))
    unfold ticksOutputs at hout
    rcases List.mem_cons.mp hout with heq | hmem
    · rw [heq]
      exact hb.1
    · exact ih (syncStep allowed st inp).state hb.2
        (fun i hi => hwin i (List.mem_cons_of_mem inp hi)) out hmem

/-- C6 amended: between any two drift-correction seeks (the seeks issued
by the rate-limited correction branch) more than 500 ms of wall clock
elapses, regardless of tick frequency: once a tick at a positive instant
issues a correction seek, no tick of any subsequent sequence that stays
within 500 ms of that instant issues another.  The loop-boundary seek is
not rate-limited, as the counterexample shows. -/
theorem claim6_rate_limit (allowed : ℚ) (st : SyncState) (inp1 : TickInput)
    (inps : List TickInput)
    (h0 : 0 < inp1.now)
    (h1 : isCorrectionSeek (syncStep allowed st inp1) = true)
    (hwin : ∀ inp ∈ inps, inp.now - inp1.now ≤ 500) :
    ∀ out ∈ ticksOutputs allowed (syncStep allowed st inp1).state inps,
      isCorrectionSeek out = false :=
  noCorrection_in_window allowed inp1.now (ne_of_gt h0) inps
    (syncStep allowed st inp1).state
    (correctionSeek_sets_lastSeek allowed st inp1 h1) hwin

/-- Witness for C6: from the fresh state, a forced correction seek at
instant 1000 blocks the correction branch of both later ticks of a
sequence at instants 1100 and 1400; the extracted fact is the second
tick of the window. -/
theorem claim6_witness :
    isCorrectionSeek (syncStep 300
      (syncStep 300
        (syncStep 300 initialSyncState ⟨1000, 50, 905, false, 0, false, [], true⟩).state
        ⟨1100, 50, 905, false, 0, false, [], true⟩).state
      ⟨1400, 50, 905, false, 0, false, [], true⟩) = false :=
  claim6_rate_limit 300 initialSyncState ⟨1000, 50, 905, false, 0, false, [], true⟩
    [⟨1100, 50, 905, false, 0, false, [], true⟩, ⟨1400, 50, 905, false, 0, false, [], true⟩]
    (by norm_num)
    (by norm_num [syncStep, isCorrectionSeek, observedLastCT, jsFalsy, loopingActive,
      rateOk, initialSyncState])
    (by
      intro inp hi
      rcases List.mem_cons.mp hi with h | h
      · rw [h]; norm_num
      · rcases List.mem_cons.mp h with h2 | h2
        · rw [h2]; norm_num
        · exact absurd h2 (List.not_mem_nil inp))
    (syncStep 300
      (syncStep 300
        (syncStep 300 initialSyncState ⟨1000, 50, 905, false, 0, false, [], true⟩).state
        ⟨1100, 50, 905, false, 0, false, [], true⟩).state
      ⟨1400, 50, 905, false, 0, false, [], true⟩)
    (List.mem_cons_of_mem _ (List.mem_cons_self _ _))

/-- C6, counterexample: the loop-boundary seek does not record _lastSeek,
so the engine can issue two seeks 100 ms apart: a boundary seek at instant
1000000 (current position 1799.95, duration 1800) followed by a direct
drift-correction seek at instant 1000100.  The claim that more than 500 ms
elapses between any two seeks issued by the engine is therefore false. -/
theorem claim6_counterexample :
    (syncStep 300 initialSyncState
        ⟨1000000, 35999/20, 3621/4, false, 1800, false, [], false⟩).seek = some (3621/4) ∧
    (syncStep 300
        (syncStep 300 initialSyncState
          ⟨1000000, 35999/20, 3621/4, false, 1800, false, [], false⟩).state
        ⟨1000100, 910, 3621/4, false, 1800, false, [], false⟩).seek = some (3621/4) ∧
    (1000100 : ℚ) - 1000000 ≤ 500 := by
  norm_num [syncStep, observedLastCT, jsFalsy, loopingActive, rateOk, initialSyncState]

/-- C7 amended: on a tick not captured by the MP3 stuck guard, with the
loop-transition window closed, a known nonzero duration and
duration - currentPosition in the interval from 0 exclusive to 0.1
inclusive, sync() seeks to targetTime and opens a 200 ms loop-transition
window; while the window is open no further loop-boundary seek fires
(drift corrections are not suppressed by the window, as the
counterexample to the original claim shows). -/
theorem claim7_loop_guard (allowed : ℚ) (st : SyncState) (inp : TickInput)
    (hns : ¬stuckCaptured st inp)
    (hnl : loopingActive st inp.now = false)
    (hd : inp.duration ≠ 0)
    (h1 : 0 < inp.duration - inp.currentTime)
    (h2 : inp.duration - inp.currentTime ≤ 1/10) :
    (syncStep allowed st inp).seek = some inp.targetTime ∧
    (syncStep allowed st inp).seekKind = some SeekKind.loop ∧
    (syncStep allowed st inp).state.loopingUntil = some (inp.now + 200) ∧
    (∀ (st2 : SyncState) (inp2 : TickInput), loopingActive st2 inp2.now = true →
      (syncStep allowed st2 inp2).seekKind ≠ some SeekKind.loop) := by
  have hns2 : ¬(inp.isMP3 = true ∧ inp.paused = false ∧
      observedLastCT st inp = some inp.currentTime ∧ inp.currentTime < 2) := hns
  have hcond : inp.duration ≠ 0 ∧ loopingActive st inp.now = false ∧
      inp.duration - inp.currentTime ≤ 1/10 ∧ 0 < inp.duration - inp.currentTime :=
    ⟨hd, hnl, h2, h1⟩
  refine ⟨?_, ?_, ?_, ?_⟩
  · unfold syncStep
    rw [if_neg hns2, if_pos hcond]
  · unfold syncStep
    rw [if_neg hns2, if_pos hcond]
  · unfold syncStep
    rw [if_neg hns2, if_pos hcond]
  · intro st2 inp2 hl2
    unfold syncStep
    split_ifs <;> simp_all [isCorrectionSeek]

/-- Witness for C7: the boundary tick of scenario 4, current position
1799.95 with duration 1800, seeks to the target 905.25. -/
theorem claim7_witness :
    (syncStep 300 initialSyncState
      ⟨1000000, 35999/20, 3621/4, false, 1800, false, [], false⟩).seek = some (3621/4) :=
  (claim7_loop_guard 300 initialSyncState
      ⟨1000000, 35999/20, 3621/4, false, 1800, false, [], false⟩
      (by norm_num [stuckCaptured])
      (by norm_num [loopingActive, initialSyncState])
      (by norm_num) (by norm_num) (by norm_num)).1

/-- C7, counterexample: a boundary tick at instant 1000000 opens the
window; 50 ms later the duration is still known and
duration - currentPosition = 0.04 lies in the interval from 0 exclusive
to 0.1 inclusive, yet the engine issues no seek at all (the window only
suppresses the loop guard, and the 10 ms drift is within tolerance), so
the claim that any such tick forces a seek is false; a forced correction
during the window would not be suppressed either. -/
theorem claim7_counterexample :
    (0 < (1800 : ℚ) - 44999/25 ∧ (1800 : ℚ) - 44999/25 ≤ 1/10) ∧
    (syncStep 300
        (syncStep 300 initialSyncState
          ⟨1000000, 35999/20, 3621/4, false, 1800, false, [], false⟩).state
        ⟨1000050, 44999/25, 179997/100, false, 1800, false, [], false⟩).seek = none := by
  norm_num [syncStep, observedLastCT, jsFalsy, loopingActive, rateOk, initialSyncState]

/-- C8: evaluation of the code at the failing input.  From the fresh
state, an MP3 tick stuck at position 0 sets the stuck counter to 1 and
records position 0; on the next tick the position has advanced to 1, yet
because the recorded position 0 is falsy it is overwritten with the new
position before the comparison, the tick still counts as stuck and the
counter rises to 2 instead of resetting to 0. -/
theorem claim8_stuck_reset_bug :
    (syncStep 300 initialSyncState
        ⟨1000000, 0, 905, false, 0, true, [], false⟩).state.lastCurrentTime = some 0 ∧
    (syncStep 300 initialSyncState
        ⟨1000000, 0, 905, false, 0, true, [], false⟩).state.stuckCount = 1 ∧
    (syncStep 300
        (syncStep 300 initialSyncState ⟨1000000, 0, 905, false, 0, true, [], false⟩).state
        ⟨1000016, 1, 905, false, 0, true, [], false⟩).state.stuckCount = 2 ∧
    (1 : ℚ) ≠ 0 := by
  norm_num [syncStep, observedLastCT, jsFalsy, initialSyncState]

/-- C9 amended: a forced tick always enters the correction branch,
bypassing the drift-tolerance test (no hypothesis on the drift appears
below), but remains subject to the 500 ms rate limit; when the rate test
passes and neither the stuck guard nor the loop guard captures the tick,
a non-MP3 source seeks directly to targetTime. -/
theorem claim9_force_correction (allowed : ℚ) (st : SyncState) (inp : TickInput)
    (hf : inp.force = true)
    (hns : ¬stuckCaptured st inp)
    (hnl : ¬(inp.duration ≠ 0 ∧ loopingActive st inp.now = false ∧
        inp.duration - inp.currentTime ≤ 1/10 ∧ 0 < inp.duration - inp.currentTime))
    (hrate : rateOk st.lastSeek inp.now = true)
    (hmp3 : inp.isMP3 = false) :
    (syncStep allowed st inp).seek = some inp.targetTime ∧
    (syncStep allowed st inp).seekKind = some SeekKind.direct := by
  have hns2 : ¬(inp.isMP3 = true ∧ inp.paused = false ∧
      observedLastCT st inp = some inp.currentTime ∧ inp.currentTime < 2) := hns
  have hmp3ne : ¬(inp.isMP3 = true) := by simp [hmp3]
  constructor <;>
    · unfold syncStep
      rw [if_neg hns2, if_neg hnl, if_pos (Or.inl hf), if_pos hrate, if_neg hmp3ne]

/-- Witness for C9: a forced tick from the fresh state with zero drift
tolerance margin still seeks directly to the target. -/
theorem claim9_witness :
    (syncStep 300 initialSyncState
      ⟨1000, 905, 905, false, 0, false, [], true⟩).seek = some 905 :=
  (claim9_force_correction 300 initialSyncState ⟨1000, 905, 905, false, 0, false, [], true⟩
      rfl
      (by norm_num [stuckCaptured])
      (by norm_num)
      (by norm_num [rateOk, initialSyncState])
      rfl).1

/-- C9, counterexample: with a correction seek recorded 100 ms earlier,
a forced tick (explicit user seek during playback, 4750 ms of drift)
issues no seek: force bypasses only the drift-tolerance test, not the
500 ms rate limit, so the claim that the forced correction bypasses the
rate limit is false. -/
theorem claim9_counterexample :
    (syncStep 300 ⟨some 5, 0, none, some 1000⟩
        ⟨1100, 910, 3621/4, false, 0, false, [], true⟩).seek = none ∧
    (1100 : ℚ) - 1000 ≤ 500 ∧
    (300 : ℚ) < |((910 : ℚ) - 3621/4) * 1000| := by
  norm_num [syncStep, observedLastCT, jsFalsy, loopingActive, rateOk]

end SyncedAudio
